import Mathlib

/-!
Shallow embedding of
`src/core/NEON/kernels/assembly/NEGEMMInterleavedPrepareBWrapperKernel.cpp`
(ARM Compute Library): the partition planner `for_each_element_in_window`,
the analytic buffer sizer `get_B_pretransposed_array_size`, and the
`configure` / `create_workloads` / `run` wrappers of
`NEGEMMInterleavedPrepareBWrapperKernelTemplate`.

Machine `unsigned int` values are modelled as `Nat`: all quantities involved
(offsets, sizes, block counts) are non-negative and no operation in the
modelled code relies on wrap-around.
-/

namespace ComputeLibrary

/-- `ceil_to_multiple(value, divisor)` from `arm_compute/core/Utils.h`:
rounds `value` up to the nearest multiple of `divisor`
(`DIV_CEIL(value, divisor) * divisor` with `DIV_CEIL(v, d) = (v + d - 1) / d`). -/
def ceil_to_multiple (value divisor : Nat) : Nat :=
  ((value + divisor - 1) / divisor) * divisor

/-- One axis of an `arm_compute::Window`: start, end and step
(`Window::Dimension(start, end, step)`). -/
structure WindowDimension where
  wstart : Nat
  wend : Nat
  wstep : Nat
deriving Repr, DecidableEq

/-- The coordinates visited along one window dimension by
`execute_window_loop`: `start, start + step, start + 2*step, ...` while the
coordinate is `< end`. -/
def WindowDimension.points (d : WindowDimension) : List Nat :=
  (List.range ((d.wend - d.wstart + d.wstep - 1) / d.wstep)).map
    (fun i => d.wstart + i * d.wstep)

/-- A 3-D `arm_compute::Window` as used by this kernel:
`DimX` (output columns), `DimY` (reduction dimension), `DimZ` (batch). -/
structure Window where
  dimX : WindowDimension
  dimY : WindowDimension
  dimZ : WindowDimension
deriving Repr, DecidableEq

/-- The sequence of coordinates `(x, y, z) = (x0, k0, multi)` visited by
`execute_window_loop`: dimension Z is outermost, then Y, then X innermost. -/
def windowCells (w : Window) : List (Nat × Nat × Nat) :=
  w.dimZ.points.flatMap (fun multi =>
    w.dimY.points.flatMap (fun k0 =>
      w.dimX.points.map (fun x0 => (x0, k0, multi))))

/-- The strategy capability `Kernel<To, use_dot>::strategy` together with the
element size: `out_width()` (panel width), `k_unroll()` and `sizeof(To)`. -/
structure Strategy where
  out_width : Nat
  k_unroll : Nat
  sizeof_To : Nat
deriving Repr, DecidableEq

/-- The part of the source tensor info `b->info()` the kernel reads:
the first-element byte offset and the byte stride of the batch (Z) axis,
so that `offset_element_in_bytes(Coordinates(0, 0, multi))` is
`offset_first_element_in_bytes + multi * stride_z`. -/
structure BTensorInfo where
  offset_first_element_in_bytes : Nat
  stride_z : Nat
deriving Repr, DecidableEq

/-- `b->info()->offset_element_in_bytes(Coordinates(0, 0, multi))`. -/
def BTensorInfo.offset_element_in_bytes (info : BTensorInfo) (multi : Nat) : Nat :=
  info.offset_first_element_in_bytes + multi * info.stride_z

/-- `arm_compute::PrepareBWorkload`, constructed as
`PrepareBWorkload(offset_b, offset_transformed_b, x0, xmax, k0, kmax)`. -/
structure PrepareBWorkload where
  offset_b : Nat
  offset_transformed_b : Nat
  x0 : Nat
  xmax : Nat
  k0 : Nat
  kmax : Nat
deriving Repr, DecidableEq

/-- Body of the `execute_window_loop` lambda in `for_each_element_in_window`
(lines 44-66), run over an explicit list of coordinates while threading the
accumulator `offset_transformed_b`; returns the list of workloads passed to
the lambda, in call order. -/
def planCells (strat : Strategy) (xstep kstep N K : Nat) (binfo : BTensorInfo) :
    List (Nat × Nat × Nat) → Nat → List PrepareBWorkload
  | [], _ => []
  | (x0, k0, multi) :: rest, offset_transformed_b =>
    let offset_b := binfo.offset_element_in_bytes multi
    let xmax := min (x0 + xstep) N
    let kmax := min (k0 + kstep) K
    let x_size := ceil_to_multiple (xmax - x0) strat.out_width
    let k_size := ceil_to_multiple (kmax - k0) strat.k_unroll
    PrepareBWorkload.mk offset_b offset_transformed_b x0 xmax k0 kmax ::
      planCells strat xstep kstep N K binfo rest
        (offset_transformed_b + x_size * k_size * strat.sizeof_To)

/-- `for_each_element_in_window<To, use_dot>(window, b, transformed_b, N, K,
lambda)` (lines 39-67), with the sequence of workloads handed to `lambda`
materialised as a list. `tb_offset_first` is
`transformed_b->info()->offset_first_element_in_bytes()`. -/
def for_each_element_in_window (strat : Strategy) (w : Window)
    (binfo : BTensorInfo) (tb_offset_first N K : Nat) : List PrepareBWorkload :=
  planCells strat w.dimX.wstep w.dimY.wstep N K binfo (windowCells w) tb_offset_first

/-- `arm_compute::BlockSizes` as used here (fields `x_block`, `k_block`). -/
structure BlockSizes where
  x_block : Nat
  k_block : Nat
deriving Repr, DecidableEq

/-- `get_B_pretransposed_array_size<To, use_dot>(N, K, bs)` (lines 71-94),
ignoring the two debug assertions (see the checked variant below). -/
def get_B_pretransposed_array_size (strat : Strategy) (N K : Nat)
    (bs : BlockSizes) : Nat :=
  let num_full_k := K / bs.k_block
  let num_full_x := N / bs.x_block
  let normal_x_size := bs.x_block
  let normal_k_size := bs.k_block
  let left_over_x_size := ceil_to_multiple (N % bs.x_block) strat.out_width
  let left_over_k_size := ceil_to_multiple (K % bs.k_block) strat.k_unroll
  (num_full_k * normal_k_size * (num_full_x * normal_x_size + left_over_x_size)
    + left_over_k_size * (left_over_x_size + num_full_x * normal_x_size))
    * strat.sizeof_To

/-- `get_B_pretransposed_array_size` with its two `ARM_COMPUTE_ERROR_ON`
checks (lines 79-80) modelled as a fatal error: `x_block` must be a multiple
of `strategy::out_width()` and `k_block` a multiple of
`strategy::k_unroll()`. -/
def get_B_pretransposed_array_size_checked (strat : Strategy) (N K : Nat)
    (bs : BlockSizes) : Except Unit Nat :=
  if bs.x_block % strat.out_width ≠ 0 then Except.error ()
  else if bs.k_block % strat.k_unroll ≠ 0 then Except.error ()
  else Except.ok (get_B_pretransposed_array_size strat N K bs)

/-- The window set up by `configure` (lines 120-123): X over
`[0, ceil_to_multiple(N, x_block))` stepped by `x_block`, Y over
`[0, ceil_to_multiple(K, k_block))` stepped by `k_block`, Z over
`[0, multis)` stepped by 1. -/
def configureWindow (bs : BlockSizes) (N K multis : Nat) : Window :=
  { dimX := ⟨0, ceil_to_multiple N bs.x_block, bs.x_block⟩
    dimY := ⟨0, ceil_to_multiple K bs.k_block, bs.k_block⟩
    dimZ := ⟨0, multis, 1⟩ }

/-- The configured state of `NEGEMMInterleavedPrepareBWrapperKernelTemplate`
after `configure` (member fields plus the `INEKernel` window). -/
structure KernelState where
  strat : Strategy
  Nsize : Nat
  Ksize : Nat
  block_sizes : BlockSizes
  binfo : BTensorInfo
  tb_offset_first : Nat
  window : Window
deriving Repr, DecidableEq

/-- `configure` (lines 105-126) restricted to what it stores: records `N`,
`K` and the block sizes, and sets the window via `configureWindow`.
`multis` is `b->info()->tensor_shape().z()`. -/
def configure (strat : Strategy) (binfo : BTensorInfo) (tb_offset_first : Nat)
    (N K multis : Nat) (bs : BlockSizes) : KernelState :=
  { strat := strat, Nsize := N, Ksize := K, block_sizes := bs,
    binfo := binfo, tb_offset_first := tb_offset_first,
    window := configureWindow bs N K multis }

/-- `configure` with the fatal alignment checks it reaches through its call
to `get_B_pretransposed_array_size` (line 118 calling lines 79-80): on
misaligned block sizes the error fires before the window is established. -/
def configure_checked (strat : Strategy) (binfo : BTensorInfo)
    (tb_offset_first : Nat) (N K multis : Nat) (bs : BlockSizes) :
    Except Unit KernelState :=
  match get_B_pretransposed_array_size_checked strat N K bs with
  | Except.error e => Except.error e
  | Except.ok _ => Except.ok (configure strat binfo tb_offset_first N K multis bs)

/-- `create_workloads(workloads)` (lines 141-147): walks the configured
window and pushes every generated workload onto the vector. -/
def create_workloads (s : KernelState) (workloads : List PrepareBWorkload) :
    List PrepareBWorkload :=
  workloads ++ for_each_element_in_window s.strat s.window s.binfo
    s.tb_offset_first s.Nsize s.Ksize

/-- The sequence of workloads `run` (lines 150-157) passes to `transform`
when invoked with window `w`. -/
def run_seq (s : KernelState) (w : Window) : List PrepareBWorkload :=
  for_each_element_in_window s.strat w s.binfo s.tb_offset_first s.Nsize s.Ksize

/-- Modelled from the spec: `ARM_COMPUTE_ERROR_ON_MISMATCHING_WINDOWS`
(`arm_compute/core/Validate.h`, not under `src/`), called by `run` at line
152 before any transform: a fatal error when the passed window's extents or
steps disagree with the configured window; otherwise `run` transforms every
workload of the walked window. -/
def run_checked (s : KernelState) (w : Window) :
    Except Unit (List PrepareBWorkload) :=
  if w = s.window then Except.ok (run_seq s w) else Except.error ()

/-- Modelled from the spec: `auto_init_if_empty` (`arm_compute/core/Helpers.h`,
not under `src/`): if the destination tensor has no previously established
shape, initialize it with the proposed shape; otherwise leave it untouched. -/
def auto_init_if_empty (current : Option (List Nat)) (proposed : List Nat) :
    Option (List Nat) :=
  match current with
  | none => some proposed
  | some s => some s

/-- The shape `configure` (line 118) gives the destination tensor: the
proposed shape is the 1-D shape `{ get_B_pretransposed_array_size(...) }`. -/
def configure_dest_shape (strat : Strategy) (N K : Nat) (bs : BlockSizes)
    (dst_shape : Option (List Nat)) : Option (List Nat) :=
  auto_init_if_empty dst_shape [get_B_pretransposed_array_size strat N K bs]

/-- The number of destination bytes a workload occupies, recomputed from its
stored bounds exactly as the planner's accumulator does (lines 55-65):
`ceil_to_multiple(xmax - x0, out_width) * ceil_to_multiple(kmax - k0,
k_unroll) * sizeof(To)`. -/
def blockBytes (strat : Strategy) (wl : PrepareBWorkload) : Nat :=
  ceil_to_multiple (wl.xmax - wl.x0) strat.out_width *
    ceil_to_multiple (wl.kmax - wl.k0) strat.k_unroll * strat.sizeof_To

/-- The full plan of the configured kernel: the workload sequence generated
over the whole configured domain (what `create_workloads` appends and what
`run` on the full window hands to `transform`). -/
def fullPlan (strat : Strategy) (binfo : BTensorInfo) (tb N K multis : Nat)
    (bs : BlockSizes) : List PrepareBWorkload :=
  for_each_element_in_window strat (configureWindow bs N K multis) binfo tb N K

/-- A window restricted to the single batch plane `m` (the Z slice a
parallel runtime would hand to one worker for that batch). -/
def batchWindow (w : Window) (m : Nat) : Window :=
  { w with dimZ := ⟨m, m + 1, 1⟩ }

/-- The destination bytes a single domain cell `(x0, k0, multi)` contributes,
as computed inside the loop body. -/
def cellBytes (strat : Strategy) (xstep kstep N K : Nat)
    (c : Nat × Nat × Nat) : Nat :=
  ceil_to_multiple (min (c.1 + xstep) N - c.1) strat.out_width *
    ceil_to_multiple (min (c.2.1 + kstep) K - c.2.1) strat.k_unroll *
    strat.sizeof_To

/-! ### Arithmetic helper lemmas -/

theorem ceil_to_multiple_dvd (v m : Nat) (hm : 0 < m) (h : m ∣ v) :
    ceil_to_multiple v m = v := by
  obtain ⟨c, rfl⟩ := h
  unfold ceil_to_multiple
  have h1 : m * c + m - 1 = m * c + (m - 1) := by omega
  rw [h1, Nat.mul_add_div hm, Nat.div_eq_of_lt (show m - 1 < m by omega)]
  ring

theorem le_ceil_to_multiple (v m : Nat) (hm : 0 < m) : v ≤ ceil_to_multiple v m := by
  unfold ceil_to_multiple
  have h := Nat.div_add_mod (v + m - 1) m
  have h2 := Nat.mod_lt (v + m - 1) hm
  have h3 : ((v + m - 1) / m) * m = m * ((v + m - 1) / m) := Nat.mul_comm _ _
  omega

theorem ceil_to_multiple_pos (v m : Nat) (hm : 0 < m) (hv : 0 < v) :
    0 < ceil_to_multiple v m :=
  Nat.lt_of_lt_of_le hv (le_ceil_to_multiple v m hm)

theorem ceil_to_multiple_count (N b : Nat) (hb : 0 < b) :
    (ceil_to_multiple N b + b - 1) / b = (N + b - 1) / b := by
  unfold ceil_to_multiple
  have h1 : (N + b - 1) / b * b + b - 1 = b * ((N + b - 1) / b) + (b - 1) := by
    rw [Nat.mul_comm]; omega
  rw [h1, Nat.mul_add_div hb, Nat.div_eq_of_lt (show b - 1 < b by omega),
    Nat.add_zero]

theorem ceil_div_count (N b : Nat) (hb : 0 < b) :
    (N + b - 1) / b = N / b + (if N % b = 0 then 0 else 1) := by
  have h := Nat.div_add_mod N b
  by_cases hr : N % b = 0
  · simp only [hr, if_pos rfl, Nat.add_zero]
    have h2 : N + b - 1 = b * (N / b) + (b - 1) := by omega
    rw [h2, Nat.mul_add_div hb, Nat.div_eq_of_lt (show b - 1 < b by omega),
      Nat.add_zero]
    simp
  · simp only [hr, if_neg hr]
    have hd : b * (N / b + 1) = b * (N / b) + b := by ring
    have hmod := Nat.mod_lt N hb
    have h2 : N + b - 1 = b * (N / b + 1) + (N % b - 1) := by omega
    rw [h2, Nat.mul_add_div hb,
      Nat.div_eq_of_lt (show N % b - 1 < b by omega), Nat.add_zero]
    simp

/-- Points of a zero-based window dimension, as multiples of the step. -/
theorem points_zero_start (e st : Nat) :
    (WindowDimension.mk 0 e st).points =
      (List.range ((e + st - 1) / st)).map (fun i => i * st) := by
  simp [WindowDimension.points]

/-- The X points of the configured window are `0, x_block, 2*x_block, ...`,
one per X cell, with `ceilDiv N x_block` cells in total. -/
theorem configureWindow_pointsX (bs : BlockSizes) (N K multis : Nat)
    (hb : 0 < bs.x_block) :
    (configureWindow bs N K multis).dimX.points =
      (List.range ((N + bs.x_block - 1) / bs.x_block)).map
        (fun i => i * bs.x_block) := by
  simp only [configureWindow]
  rw [points_zero_start, ceil_to_multiple_count _ _ hb]

/-- The Y (reduction) points of the configured window. -/
theorem configureWindow_pointsY (bs : BlockSizes) (N K multis : Nat)
    (hb : 0 < bs.k_block) :
    (configureWindow bs N K multis).dimY.points =
      (List.range ((K + bs.k_block - 1) / bs.k_block)).map
        (fun i => i * bs.k_block) := by
  simp only [configureWindow]
  rw [points_zero_start, ceil_to_multiple_count _ _ hb]

/-- The batch points of the configured window are `0, 1, ..., multis - 1`. -/
theorem configureWindow_pointsZ (bs : BlockSizes) (N K multis : Nat) :
    (configureWindow bs N K multis).dimZ.points = List.range multis := by
  simp [configureWindow, WindowDimension.points]

/-! ### Structural lemmas about the planner -/

theorem planCells_length (strat : Strategy) (xs ks N K : Nat)
    (binfo : BTensorInfo) :
    ∀ (cells : List (Nat × Nat × Nat)) (off : Nat),
      (planCells strat xs ks N K binfo cells off).length = cells.length := by
  intro cells
  induction cells with
  | nil => intro off; rfl
  | cons c rest ih =>
    obtain ⟨x0, k0, m⟩ := c
    intro off
    simp [planCells, ih]

/-- Full indexed characterization of the planner's output: the `i`-th
workload records the `i`-th cell's coordinates, clamped bounds, the
batch-only source offset, and a destination offset equal to the initial
accumulator plus the bytes of all preceding cells. -/
theorem planCells_get (strat : Strategy) (xs ks N K : Nat)
    (binfo : BTensorInfo) :
    ∀ (cells : List (Nat × Nat × Nat)) (off i : Nat)
      (h : i < (planCells strat xs ks N K binfo cells off).length)
      (h' : i < cells.length),
      (planCells strat xs ks N K binfo cells off).get ⟨i, h⟩ =
        PrepareBWorkload.mk
          (binfo.offset_element_in_bytes (cells.get ⟨i, h'⟩).2.2)
          (off + ((cells.take i).map (cellBytes strat xs ks N K)).sum)
          (cells.get ⟨i, h'⟩).1
          (min ((cells.get ⟨i, h'⟩).1 + xs) N)
          (cells.get ⟨i, h'⟩).2.1
          (min ((cells.get ⟨i, h'⟩).2.1 + ks) K) := by
  intro cells
  induction cells with
  | nil => intro off i h h'; simp at h'
  | cons c rest ih =>
    obtain ⟨x0, k0, m⟩ := c
    intro off i h h'
    match i with
    | 0 => simp [planCells]
    | Nat.succ i =>
      have hr' : i < rest.length := by
        have hlen := planCells_length strat xs ks N K binfo
          ((x0, k0, m) :: rest) off
        simp only [List.length_cons] at hlen
        omega
      have hr : i < (planCells strat xs ks N K binfo rest
          (off + cellBytes strat xs ks N K (x0, k0, m))).length := by
        rw [planCells_length]; exact hr'
      have step : planCells strat xs ks N K binfo ((x0, k0, m) :: rest) off =
          PrepareBWorkload.mk (binfo.offset_element_in_bytes m) off x0
              (min (x0 + xs) N) k0 (min (k0 + ks) K) ::
            planCells strat xs ks N K binfo rest
              (off + cellBytes strat xs ks N K (x0, k0, m)) := rfl
      have := ih (off + cellBytes strat xs ks N K (x0, k0, m)) i hr hr'
      refine this.trans ?_
      simp only [List.get_cons_succ, List.take_succ_cons, List.map_cons,
        List.sum_cons, PrepareBWorkload.mk.injEq, Nat.add_assoc]

/-- Every workload the planner emits comes from a cell of the walked list,
with the bounds and source offset computed from that cell. -/
theorem planCells_mem_to (strat : Strategy) (xs ks N K : Nat)
    (binfo : BTensorInfo) :
    ∀ (cells : List (Nat × Nat × Nat)) (off : Nat) (wl : PrepareBWorkload),
      wl ∈ planCells strat xs ks N K binfo cells off →
      ∃ c ∈ cells, wl.offset_b = binfo.offset_element_in_bytes c.2.2 ∧
        wl.x0 = c.1 ∧ wl.xmax = min (c.1 + xs) N ∧
        wl.k0 = c.2.1 ∧ wl.kmax = min (c.2.1 + ks) K := by
  intro cells
  induction cells with
  | nil => intro off wl h; simp [planCells] at h
  | cons c rest ih =>
    obtain ⟨x0, k0, m⟩ := c
    intro off wl h
    simp only [planCells, List.mem_cons] at h
    rcases h with h | h
    · exact ⟨(x0, k0, m), List.mem_cons_self _ _, by simp [h]⟩
    · obtain ⟨c, hc, hfields⟩ := ih _ wl h
      exact ⟨c, List.mem_cons_of_mem _ hc, hfields⟩

/-- Every cell of the walked list produces a workload with the bounds and
source offset computed from that cell. -/
theorem planCells_mem_from (strat : Strategy) (xs ks N K : Nat)
    (binfo : BTensorInfo) :
    ∀ (cells : List (Nat × Nat × Nat)) (off : Nat) (c : Nat × Nat × Nat),
      c ∈ cells →
      ∃ wl ∈ planCells strat xs ks N K binfo cells off,
        wl.offset_b = binfo.offset_element_in_bytes c.2.2 ∧
        wl.x0 = c.1 ∧ wl.xmax = min (c.1 + xs) N ∧
        wl.k0 = c.2.1 ∧ wl.kmax = min (c.2.1 + ks) K := by
  intro cells
  induction cells with
  | nil => intro off c h; simp at h
  | cons c0 rest ih =>
    obtain ⟨x0, k0, m⟩ := c0
    intro off c h
    rcases List.mem_cons.mp h with h | h
    · subst h
      exact ⟨PrepareBWorkload.mk (binfo.offset_element_in_bytes m) off x0
          (min (x0 + xs) N) k0 (min (k0 + ks) K),
        List.mem_cons_self _ _, by simp⟩
    · obtain ⟨wl, hwl, hfields⟩ :=
        ih (off + cellBytes strat xs ks N K (x0, k0, m)) c h
      exact ⟨wl, List.mem_cons_of_mem _ hwl, hfields⟩

/-- The per-workload byte sizes recomputed from the stored bounds are the
per-cell byte sizes. -/
theorem planCells_map_blockBytes (strat : Strategy) (xs ks N K : Nat)
    (binfo : BTensorInfo) :
    ∀ (cells : List (Nat × Nat × Nat)) (off : Nat),
      (planCells strat xs ks N K binfo cells off).map (blockBytes strat) =
        cells.map (cellBytes strat xs ks N K) := by
  intro cells
  induction cells with
  | nil => intro off; rfl
  | cons c rest ih =>
    obtain ⟨x0, k0, m⟩ := c
    intro off
    simp [planCells, blockBytes, cellBytes, ih]

/-- An X index below the cell count addresses a column strictly inside the
matrix. -/
theorem cell_start_lt (i b N : Nat) (hb : 0 < b)
    (hi : i < (N + b - 1) / b) : i * b < N := by
  have h1 : (i + 1) * b ≤ ((N + b - 1) / b) * b :=
    Nat.mul_le_mul_right _ hi
  have h2 : ((N + b - 1) / b) * b ≤ N + b - 1 := Nat.div_mul_le_self _ _
  have h3 : (i + 1) * b = i * b + b := by ring
  omega

/-- Membership in the configured window's cell list. -/
theorem mem_windowCells_configure (bs : BlockSizes) (N K multis : Nat)
    (hx : 0 < bs.x_block) (hk : 0 < bs.k_block) (c : Nat × Nat × Nat) :
    c ∈ windowCells (configureWindow bs N K multis) ↔
      ∃ m < multis, ∃ j < (K + bs.k_block - 1) / bs.k_block,
        ∃ i < (N + bs.x_block - 1) / bs.x_block,
          c = (i * bs.x_block, j * bs.k_block, m) := by
  simp only [windowCells, configureWindow_pointsX bs N K multis hx,
    configureWindow_pointsY bs N K multis hk, configureWindow_pointsZ,
    List.mem_flatMap, List.mem_map, List.mem_range]
  constructor
  · rintro ⟨m, hm, t, ⟨j, hj, rfl⟩, x0t, ⟨i, hi, rfl⟩, rfl⟩
    exact ⟨m, hm, j, hj, i, hi, rfl⟩
  · rintro ⟨m, hm, j, hj, i, hi, rfl⟩
    exact ⟨m, hm, j * bs.k_block, ⟨j, hj, rfl⟩, i * bs.x_block,
      ⟨i, hi, rfl⟩, rfl⟩

/-! ### Summation lemmas: the planner's bytes versus the analytic size -/

theorem sum_map_range_eq_const (n c : Nat) (f : Nat → Nat)
    (h : ∀ i < n, f i = c) : ((List.range n).map f).sum = n * c := by
  induction n with
  | zero => simp
  | succ n ih =>
    rw [List.range_succ, List.map_append, List.sum_append]
    simp only [List.map_cons, List.map_nil, List.sum_cons, List.sum_nil]
    rw [ih (fun i hi => h i (by omega)), h n (by omega)]
    ring

/-- Walking one axis: the rounded clamped sizes of all cells along an axis of
length `N` with block size `b` sum to `num_full * b` plus the rounded
leftover. -/
theorem sum_sizes_1d (N b pw : Nat) (hb : 0 < b) (hd : pw ∣ b) :
    ((List.range ((N + b - 1) / b)).map
      (fun i => ceil_to_multiple (min (i * b + b) N - i * b) pw)).sum
    = N / b * b + ceil_to_multiple (N % b) pw := by
  have hpw : 0 < pw := Nat.pos_of_dvd_of_pos hd hb
  have hfull : ∀ i, i * b + b ≤ N →
      ceil_to_multiple (min (i * b + b) N - i * b) pw = b := by
    intro i hi
    rw [min_eq_left hi]
    have h2 : i * b + b - i * b = b := by omega
    rw [h2, ceil_to_multiple_dvd b pw hpw hd]
  have hfull_range : ∀ i < N / b,
      ceil_to_multiple (min (i * b + b) N - i * b) pw = b := by
    intro i hi
    apply hfull
    calc i * b + b = (i + 1) * b := by ring
    _ ≤ N / b * b := Nat.mul_le_mul_right b hi
    _ ≤ N := Nat.div_mul_le_self N b
  by_cases hr : N % b = 0
  · have hcount : (N + b - 1) / b = N / b := by
      rw [ceil_div_count N b hb, hr]; simp
    rw [hcount, hr, sum_map_range_eq_const _ b _ hfull_range,
      ceil_to_multiple_dvd 0 pw hpw (Nat.dvd_zero pw)]
    omega
  · have hcount : (N + b - 1) / b = N / b + 1 := by
      rw [ceil_div_count N b hb]; simp [hr]
    rw [hcount, List.range_succ, List.map_append, List.sum_append,
      sum_map_range_eq_const _ b _ hfull_range]
    simp only [List.map_cons, List.map_nil, List.sum_cons, List.sum_nil,
      Nat.add_zero]
    have hmod := Nat.div_add_mod N b
    have hcomm : N / b * b = b * (N / b) := Nat.mul_comm _ _
    have hltb := Nat.mod_lt N hb
    congr 1
    rw [min_eq_right (by omega)]
    congr 1
    omega

/-- The analytic size as a product of the two per-axis totals. -/
theorem get_B_pretransposed_array_size_factored (strat : Strategy)
    (N K : Nat) (bs : BlockSizes) :
    get_B_pretransposed_array_size strat N K bs =
      (K / bs.k_block * bs.k_block +
        ceil_to_multiple (K % bs.k_block) strat.k_unroll) *
      ((N / bs.x_block * bs.x_block +
        ceil_to_multiple (N % bs.x_block) strat.out_width) *
        strat.sizeof_To) := by
  unfold get_B_pretransposed_array_size
  ring

/-- Summing the per-cell byte sizes over the full configured domain. -/
theorem sum_cellBytes_configure (strat : Strategy) (bs : BlockSizes)
    (N K multis : Nat) (hx : 0 < bs.x_block) (hk : 0 < bs.k_block)
    (hpx : strat.out_width ∣ bs.x_block)
    (hpk : strat.k_unroll ∣ bs.k_block) :
    ((windowCells (configureWindow bs N K multis)).map
      (cellBytes strat bs.x_block bs.k_block N K)).sum
    = multis * get_B_pretransposed_array_size strat N K bs := by
  have hxsum : ∀ k0 m : Nat,
      (((configureWindow bs N K multis).dimX.points.map
        (fun x0 => (x0, k0, m))).map
          (cellBytes strat bs.x_block bs.k_block N K)).sum
      = (N / bs.x_block * bs.x_block +
          ceil_to_multiple (N % bs.x_block) strat.out_width) *
        (ceil_to_multiple (min (k0 + bs.k_block) K - k0) strat.k_unroll *
          strat.sizeof_To) := by
    intro k0 m
    rw [List.map_map, configureWindow_pointsX bs N K multis hx, List.map_map]
    have heq : (cellBytes strat bs.x_block bs.k_block N K ∘
          (fun x0 => (x0, k0, m))) ∘ (fun i => i * bs.x_block) =
        fun i =>
          (fun j => ceil_to_multiple (min (j * bs.x_block + bs.x_block) N -
            j * bs.x_block) strat.out_width) i *
          (ceil_to_multiple (min (k0 + bs.k_block) K - k0) strat.k_unroll *
            strat.sizeof_To) := by
      funext i
      simp only [Function.comp, cellBytes]
      ring
    rw [heq, List.sum_map_mul_right, sum_sizes_1d N bs.x_block
      strat.out_width hx hpx]
  have hksum : ∀ m : Nat,
      (((configureWindow bs N K multis).dimY.points.flatMap
        (fun k0 => (configureWindow bs N K multis).dimX.points.map
          (fun x0 => (x0, k0, m)))).map
            (cellBytes strat bs.x_block bs.k_block N K)).sum
      = get_B_pretransposed_array_size strat N K bs := by
    intro m
    rw [List.map_flatMap]
    rw [List.flatMap_def, List.sum_flatten, List.map_map]
    have heq : (List.sum ∘ fun k0 =>
          ((configureWindow bs N K multis).dimX.points.map
            (fun x0 => (x0, k0, m))).map
              (cellBytes strat bs.x_block bs.k_block N K)) =
        fun k0 =>
          (fun j => ceil_to_multiple (min (j + bs.k_block) K - j)
            strat.k_unroll) k0 *
          ((N / bs.x_block * bs.x_block +
            ceil_to_multiple (N % bs.x_block) strat.out_width) *
            strat.sizeof_To) := by
      funext k0
      simp only [Function.comp]
      rw [hxsum k0 m]
      ring
    rw [heq, configureWindow_pointsY bs N K multis hk, List.map_map]
    have heq2 : ((fun k0 => (fun j => ceil_to_multiple
          (min (j + bs.k_block) K - j) strat.k_unroll) k0 *
          ((N / bs.x_block * bs.x_block +
            ceil_to_multiple (N % bs.x_block) strat.out_width) *
            strat.sizeof_To)) ∘ (fun j => j * bs.k_block)) =
        fun j => (fun i => ceil_to_multiple
          (min (i * bs.k_block + bs.k_block) K - i * bs.k_block)
          strat.k_unroll) j *
          ((N / bs.x_block * bs.x_block +
            ceil_to_multiple (N % bs.x_block) strat.out_width) *
            strat.sizeof_To) := by
      funext j
      simp [Function.comp]
    rw [heq2, List.sum_map_mul_right, sum_sizes_1d K bs.k_block
      strat.k_unroll hk hpk, get_B_pretransposed_array_size_factored]
  unfold windowCells
  rw [List.map_flatMap, List.flatMap_def, List.sum_flatten, List.map_map,
    configureWindow_pointsZ]
  apply sum_map_range_eq_const
  intro m _
  simpa using hksum m

/-- Every cell of the configured domain contributes strictly positive bytes
when the strategy constants and the element size are positive. -/
theorem cellBytes_pos (strat : Strategy) (bs : BlockSizes)
    (N K multis : Nat) (hx : 0 < bs.x_block) (hk : 0 < bs.k_block)
    (hpw : 0 < strat.out_width) (hku : 0 < strat.k_unroll)
    (hes : 0 < strat.sizeof_To) :
    ∀ c ∈ windowCells (configureWindow bs N K multis),
      0 < cellBytes strat bs.x_block bs.k_block N K c := by
  intro c hc
  rw [mem_windowCells_configure bs N K multis hx hk] at hc
  obtain ⟨m, hm, j, hj, i, hi, rfl⟩ := hc
  have hxlt : i * bs.x_block < N := cell_start_lt i bs.x_block N hx hi
  have hklt : j * bs.k_block < K := cell_start_lt j bs.k_block K hk hj
  unfold cellBytes
  apply Nat.mul_pos (Nat.mul_pos ?_ ?_) hes
  · exact ceil_to_multiple_pos _ _ hpw (by simp; omega)
  · exact ceil_to_multiple_pos _ _ hku (by simp; omega)

/-- Contiguity of the accumulated destination offsets over the configured
domain, on the `planCells` spelling of the planner. -/
theorem planCells_contiguity (strat : Strategy) (bs : BlockSizes)
    (N K multis : Nat) (binfo : BTensorInfo) (tb : Nat)
    (hx : 0 < bs.x_block) (hk : 0 < bs.k_block)
    (hpw : 0 < strat.out_width) (hku : 0 < strat.k_unroll)
    (hes : 0 < strat.sizeof_To) :
    (∀ h : 0 < (planCells strat bs.x_block bs.k_block N K binfo
        (windowCells (configureWindow bs N K multis)) tb).length,
      ((planCells strat bs.x_block bs.k_block N K binfo
        (windowCells (configureWindow bs N K multis)) tb).get
          ⟨0, h⟩).offset_transformed_b = tb) ∧
    (∀ i, ∀ h1 : i + 1 < (planCells strat bs.x_block bs.k_block N K binfo
        (windowCells (configureWindow bs N K multis)) tb).length,
      ∀ h2 : i < (planCells strat bs.x_block bs.k_block N K binfo
        (windowCells (configureWindow bs N K multis)) tb).length,
      ((planCells strat bs.x_block bs.k_block N K binfo
        (windowCells (configureWindow bs N K multis)) tb).get
          ⟨i + 1, h1⟩).offset_transformed_b =
        ((planCells strat bs.x_block bs.k_block N K binfo
          (windowCells (configureWindow bs N K multis)) tb).get
            ⟨i, h2⟩).offset_transformed_b +
          blockBytes strat ((planCells strat bs.x_block bs.k_block N K binfo
            (windowCells (configureWindow bs N K multis)) tb).get ⟨i, h2⟩) ∧
      ((planCells strat bs.x_block bs.k_block N K binfo
        (windowCells (configureWindow bs N K multis)) tb).get
          ⟨i, h2⟩).offset_transformed_b <
        ((planCells strat bs.x_block bs.k_block N K binfo
          (windowCells (configureWindow bs N K multis)) tb).get
            ⟨i + 1, h1⟩).offset_transformed_b) := by
  have hbb : ∀ (a b : Nat) (c : Nat × Nat × Nat),
      blockBytes strat (PrepareBWorkload.mk a b c.1 (min (c.1 + bs.x_block) N)
        c.2.1 (min (c.2.1 + bs.k_block) K)) =
      cellBytes strat bs.x_block bs.k_block N K c := fun a b c => rfl
  constructor
  · intro h
    have hc : 0 < (windowCells (configureWindow bs N K multis)).length := by
      rw [← planCells_length strat bs.x_block bs.k_block N K binfo
        (windowCells (configureWindow bs N K multis)) tb]
      exact h
    rw [planCells_get strat bs.x_block bs.k_block N K binfo _ tb 0 h hc]
    simp
  · intro i h1 h2
    have hc1 : i + 1 < (windowCells (configureWindow bs N K multis)).length := by
      rw [← planCells_length strat bs.x_block bs.k_block N K binfo
        (windowCells (configureWindow bs N K multis)) tb]
      exact h1
    have hc2 : i < (windowCells (configureWindow bs N K multis)).length :=
      Nat.lt_of_succ_lt hc1
    rw [planCells_get strat bs.x_block bs.k_block N K binfo _ tb (i + 1) h1 hc1,
      planCells_get strat bs.x_block bs.k_block N K binfo _ tb i h2 hc2, hbb]
    have hmaplen : i < ((windowCells (configureWindow bs N K multis)).map
        (cellBytes strat bs.x_block bs.k_block N K)).length := by
      rw [List.length_map]; exact hc2
    have hsum : ((List.take (i + 1)
        (windowCells (configureWindow bs N K multis))).map
          (cellBytes strat bs.x_block bs.k_block N K)).sum =
        ((List.take i (windowCells (configureWindow bs N K multis))).map
          (cellBytes strat bs.x_block bs.k_block N K)).sum +
        cellBytes strat bs.x_block bs.k_block N K
          ((windowCells (configureWindow bs N K multis)).get ⟨i, hc2⟩) := by
      rw [List.map_take, List.map_take, List.sum_take_succ _ i hmaplen]
      congr 1
      rw [List.getElem_map]
      simp [List.get_eq_getElem]
    have hpos : 0 < cellBytes strat bs.x_block bs.k_block N K
        ((windowCells (configureWindow bs N K multis)).get ⟨i, hc2⟩) :=
      cellBytes_pos strat bs N K multis hx hk hpw hku hes _
        (List.get_mem _ _ _)
    dsimp only
    constructor
    · omega
    · omega

/-- The destination-offset recurrence alone (no positivity assumptions):
each consecutive pair of planned blocks differs by the earlier block's
rounded byte size. -/
theorem planCells_offset_step (strat : Strategy) (bs : BlockSizes)
    (N K multis : Nat) (binfo : BTensorInfo) (tb : Nat) :
    ∀ i, ∀ h1 : i + 1 < (planCells strat bs.x_block bs.k_block N K binfo
        (windowCells (configureWindow bs N K multis)) tb).length,
      ∀ h2 : i < (planCells strat bs.x_block bs.k_block N K binfo
        (windowCells (configureWindow bs N K multis)) tb).length,
      ((planCells strat bs.x_block bs.k_block N K binfo
        (windowCells (configureWindow bs N K multis)) tb).get
          ⟨i + 1, h1⟩).offset_transformed_b =
        ((planCells strat bs.x_block bs.k_block N K binfo
          (windowCells (configureWindow bs N K multis)) tb).get
            ⟨i, h2⟩).offset_transformed_b +
          blockBytes strat ((planCells strat bs.x_block bs.k_block N K binfo
            (windowCells (configureWindow bs N K multis)) tb).get
              ⟨i, h2⟩) := by
  have hbb : ∀ (a b : Nat) (c : Nat × Nat × Nat),
      blockBytes strat (PrepareBWorkload.mk a b c.1 (min (c.1 + bs.x_block) N)
        c.2.1 (min (c.2.1 + bs.k_block) K)) =
      cellBytes strat bs.x_block bs.k_block N K c := fun a b c => rfl
  intro i h1 h2
  have hc1 : i + 1 < (windowCells (configureWindow bs N K multis)).length := by
    rw [← planCells_length strat bs.x_block bs.k_block N K binfo
      (windowCells (configureWindow bs N K multis)) tb]
    exact h1
  have hc2 : i < (windowCells (configureWindow bs N K multis)).length :=
    Nat.lt_of_succ_lt hc1
  rw [planCells_get strat bs.x_block bs.k_block N K binfo _ tb (i + 1) h1 hc1,
    planCells_get strat bs.x_block bs.k_block N K binfo _ tb i h2 hc2, hbb]
  have hmaplen : i < ((windowCells (configureWindow bs N K multis)).map
      (cellBytes strat bs.x_block bs.k_block N K)).length := by
    rw [List.length_map]; exact hc2
  have hsum : ((List.take (i + 1)
      (windowCells (configureWindow bs N K multis))).map
        (cellBytes strat bs.x_block bs.k_block N K)).sum =
      ((List.take i (windowCells (configureWindow bs N K multis))).map
        (cellBytes strat bs.x_block bs.k_block N K)).sum +
      cellBytes strat bs.x_block bs.k_block N K
        ((windowCells (configureWindow bs N K multis)).get ⟨i, hc2⟩) := by
    rw [List.map_take, List.map_take, List.sum_take_succ _ i hmaplen]
    congr 1
    rw [List.getElem_map]
    simp [List.get_eq_getElem]
  dsimp only
  omega

/-- The batch-restricted window visits exactly the one batch coordinate. -/
theorem batchWindow_pointsZ (w : Window) (m : Nat) :
    (batchWindow w m).dimZ.points = [m] := by
  simp [batchWindow, WindowDimension.points, Nat.add_sub_cancel_left,
    List.range_succ]

/-- The cells of the batch-`m` slice of the configured window. -/
theorem windowCells_batch (bs : BlockSizes) (N K multis m : Nat) :
    windowCells (batchWindow (configureWindow bs N K multis) m) =
      (configureWindow bs N K multis).dimY.points.flatMap (fun k0 =>
        (configureWindow bs N K multis).dimX.points.map
          (fun x0 => (x0, k0, m))) := by
  unfold windowCells
  rw [batchWindow_pointsZ]
  simp [batchWindow]

/-- Membership in the batch-`m` slice's cell list. -/
theorem mem_windowCells_batch (bs : BlockSizes) (N K multis m : Nat)
    (hx : 0 < bs.x_block) (hk : 0 < bs.k_block) (c : Nat × Nat × Nat) :
    c ∈ windowCells (batchWindow (configureWindow bs N K multis) m) ↔
      ∃ j < (K + bs.k_block - 1) / bs.k_block,
        ∃ i < (N + bs.x_block - 1) / bs.x_block,
          c = (i * bs.x_block, j * bs.k_block, m) := by
  rw [windowCells_batch, configureWindow_pointsX bs N K multis hx,
    configureWindow_pointsY bs N K multis hk]
  simp only [List.mem_flatMap, List.mem_map, List.mem_range]
  constructor
  · rintro ⟨t, ⟨j, hj, rfl⟩, x0t, ⟨i, hi, rfl⟩, rfl⟩
    exact ⟨j, hj, i, hi, rfl⟩
  · rintro ⟨j, hj, i, hi, rfl⟩
    exact ⟨j * bs.k_block, ⟨j, hj, rfl⟩, i * bs.x_block, ⟨i, hi, rfl⟩, rfl⟩

/-- Consecutive X points of the configured window are a full block apart. -/
theorem pairwise_pointsX (bs : BlockSizes) (N K multis : Nat)
    (hx : 0 < bs.x_block) :
    ((configureWindow bs N K multis).dimX.points).Pairwise
      (fun a a' => a + bs.x_block ≤ a') := by
  rw [configureWindow_pointsX bs N K multis hx, List.pairwise_map]
  refine List.Pairwise.imp ?_ (List.pairwise_lt_range _)
  intro a b hab
  calc a * bs.x_block + bs.x_block = (a + 1) * bs.x_block := by ring
  _ ≤ b * bs.x_block := Nat.mul_le_mul_right _ hab

/-- Consecutive Y points of the configured window are a full block apart. -/
theorem pairwise_pointsY (bs : BlockSizes) (N K multis : Nat)
    (hk : 0 < bs.k_block) :
    ((configureWindow bs N K multis).dimY.points).Pairwise
      (fun a a' => a + bs.k_block ≤ a') := by
  rw [configureWindow_pointsY bs N K multis hk, List.pairwise_map]
  refine List.Pairwise.imp ?_ (List.pairwise_lt_range _)
  intro a b hab
  calc a * bs.k_block + bs.k_block = (a + 1) * bs.k_block := by ring
  _ ≤ b * bs.k_block := Nat.mul_le_mul_right _ hab

/-- The planner's unrounded rectangles are the cells' clamped rectangles. -/
theorem planCells_map_rect (strat : Strategy) (xs ks N K : Nat)
    (binfo : BTensorInfo) :
    ∀ (cells : List (Nat × Nat × Nat)) (off : Nat),
      (planCells strat xs ks N K binfo cells off).map
        (fun wl => (wl.x0, wl.xmax, wl.k0, wl.kmax)) =
      cells.map (fun c => (c.1, min (c.1 + xs) N, c.2.1,
        min (c.2.1 + ks) K)) := by
  intro cells
  induction cells with
  | nil => intro off; rfl
  | cons c rest ih =>
    obtain ⟨x0, k0, m⟩ := c
    intro off
    simp [planCells, ih]

/-! ### Claim theorems -/

/-- C1: Size/plan equality. For every `N`, `K` and block sizes that are
positive multiples of the strategy's panel width and k-unroll, the sum of
`x_size * k_size * element_size` over every block produced by the partition
planner walking the full configured domain equals `multis` times the
analytic buffer size `get_B_pretransposed_array_size(N, K, block_sizes)`
(exactly the analytic size when `multis = 1`). -/
theorem size_plan_equality (strat : Strategy) (binfo : BTensorInfo)
    (tb N K multis : Nat) (bs : BlockSizes)
    (hx : 0 < bs.x_block) (hk : 0 < bs.k_block)
    (hpx : strat.out_width ∣ bs.x_block)
    (hpk : strat.k_unroll ∣ bs.k_block) :
    ((for_each_element_in_window strat (configureWindow bs N K multis) binfo
      tb N K).map (blockBytes strat)).sum
    = multis * get_B_pretransposed_array_size strat N K bs := by
  unfold for_each_element_in_window
  rw [planCells_map_blockBytes]
  have hxs : (configureWindow bs N K multis).dimX.wstep = bs.x_block := rfl
  have hks : (configureWindow bs N K multis).dimY.wstep = bs.k_block := rfl
  rw [hxs, hks]
  exact sum_cellBytes_configure strat bs N K multis hx hk hpx hpk

/-- C1 witness: the size/plan equality instantiated at
`N = 5, K = 3, x_block = 4, k_block = 2, panel_width = 2, k_unroll = 1,
element_size = 3, multis = 2`. -/
theorem size_plan_equality_witness :
    0 < 4 ∧ 0 < 2 ∧ (2 : Nat) ∣ 4 ∧ (1 : Nat) ∣ 2 ∧
    ((for_each_element_in_window ⟨2, 1, 3⟩ (configureWindow ⟨4, 2⟩ 5 3 2)
      ⟨7, 11⟩ 13 5 3).map (blockBytes ⟨2, 1, 3⟩)).sum
    = 2 * get_B_pretransposed_array_size ⟨2, 1, 3⟩ 5 3 ⟨4, 2⟩ :=
  ⟨by decide, by decide, by decide, by decide,
    size_plan_equality ⟨2, 1, 3⟩ ⟨7, 11⟩ 13 5 3 2 ⟨4, 2⟩ (by decide)
      (by decide) (by decide) (by decide)⟩

/-- C5: Enumeration/execution agreement. For the same configured state and
the full configured window, the sequence of `PrepareBWorkload` values `run`
passes to `transform` is exactly the sequence `create_workloads` appends to
its output vector. -/
theorem run_create_workloads_agree (s : KernelState) :
    run_checked s s.window = Except.ok (create_workloads s []) := by
  simp [run_checked, run_seq, create_workloads]

/-- C7: Concrete scenario `N = 100, K = 64, x_block = 32, k_block = 32,
panel_width = 8, k_unroll = 4, multis = 1, element_size = 4`: the planner
produces exactly the 8 blocks with `x0 ∈ {0, 32, 64, 96}`,
`xmax ∈ {32, 64, 96, 100}`, `k0 ∈ {0, 32}`, `kmax ∈ {32, 64}` (the last X
cell's unrounded width 4 rounds up to 8, visible in the `dst_offset` jump
from 12288 to 13312), and the analytic size formula's output equals the sum
of the 8 blocks' rounded byte sizes. -/
theorem concrete_scenario :
    create_workloads (configure ⟨8, 4, 4⟩ ⟨0, 0⟩ 0 100 64 1 ⟨32, 32⟩) [] =
      [⟨0, 0, 0, 32, 0, 32⟩, ⟨0, 4096, 32, 64, 0, 32⟩,
       ⟨0, 8192, 64, 96, 0, 32⟩, ⟨0, 12288, 96, 100, 0, 32⟩,
       ⟨0, 13312, 0, 32, 32, 64⟩, ⟨0, 17408, 32, 64, 32, 64⟩,
       ⟨0, 21504, 64, 96, 32, 64⟩, ⟨0, 25600, 96, 100, 32, 64⟩] ∧
    get_B_pretransposed_array_size ⟨8, 4, 4⟩ 100 64 ⟨32, 32⟩ =
      ((create_workloads (configure ⟨8, 4, 4⟩ ⟨0, 0⟩ 0 100 64 1 ⟨32, 32⟩)
        []).map (blockBytes ⟨8, 4, 4⟩)).sum := by
  constructor
  · decide
  · decide

/-- C8: Idempotent replanning. Walking the same configured domain twice —
two `create_workloads` calls against the identical configured state —
appends two identical copies of the planned sequence: re-walking reproduces
the same blocks, byte for byte, in the same order. -/
theorem idempotent_replanning (s : KernelState) (ws : List PrepareBWorkload) :
    create_workloads s (create_workloads s ws) =
      ws ++ create_workloads s [] ++ create_workloads s [] := by
  simp [create_workloads]

/-- C9: Pre-sized destination honored. `configure` initializes the
destination tensor's shape to the 1-D byte buffer computed by the sizer if
and only if the destination has no previously established shape; an already
established shape is left unchanged. -/
theorem pre_sized_destination_honored (strat : Strategy) (N K : Nat)
    (bs : BlockSizes) (dst : Option (List Nat)) :
    (dst = none →
      configure_dest_shape strat N K bs dst =
        some [get_B_pretransposed_array_size strat N K bs]) ∧
    (∀ sh, dst = some sh → configure_dest_shape strat N K bs dst = some sh) := by
  constructor
  · rintro rfl; rfl
  · rintro sh rfl; rfl

/-- C9 witness: at the concrete scenario's sizes, an empty destination is
initialized to the computed 1-D shape and a pre-sized destination `[7]` is
left unchanged. -/
theorem pre_sized_destination_honored_witness :
    configure_dest_shape ⟨8, 4, 4⟩ 100 64 ⟨32, 32⟩ none =
      some [get_B_pretransposed_array_size ⟨8, 4, 4⟩ 100 64 ⟨32, 32⟩] ∧
    configure_dest_shape ⟨8, 4, 4⟩ 100 64 ⟨32, 32⟩ (some [7]) = some [7] :=
  ⟨(pre_sized_destination_honored ⟨8, 4, 4⟩ 100 64 ⟨32, 32⟩ none).1 rfl,
   (pre_sized_destination_honored ⟨8, 4, 4⟩ 100 64 ⟨32, 32⟩
     (some [7])).2 [7] rfl⟩

/-- C10: Eager fatal validation before any work. `configure` fails with a
fatal error when `x_block` is not a multiple of the panel width or `k_block`
is not a multiple of the k-unroll (so no state is configured), and `run`
fails with a fatal error when the passed window disagrees with the
configured window (so no workload is transformed). -/
theorem eager_fatal_validation (strat : Strategy) (binfo : BTensorInfo)
    (tb N K multis : Nat) (bs : BlockSizes) (s : KernelState) (w : Window) :
    (bs.x_block % strat.out_width ≠ 0 ∨ bs.k_block % strat.k_unroll ≠ 0 →
      configure_checked strat binfo tb N K multis bs = Except.error ()) ∧
    (w ≠ s.window → run_checked s w = Except.error ()) := by
  constructor
  · intro h
    unfold configure_checked get_B_pretransposed_array_size_checked
    rcases h with h | h
    · simp [h]
    · by_cases hx : bs.x_block % strat.out_width ≠ 0
      · simp [hx]
      · simp [hx, h]
  · intro h
    unfold run_checked
    simp [h]

/-- C10 witness: `x_block = 3` with panel width 2 makes `configure` fail,
and a window whose batch extent disagrees with the configured one makes
`run` fail. -/
theorem eager_fatal_validation_witness :
    ((3 : Nat) % 2 ≠ 0 ∨ (2 : Nat) % 1 ≠ 0) ∧
    configureWindow ⟨2, 2⟩ 5 4 2 ≠
      (configure ⟨2, 1, 4⟩ ⟨0, 0⟩ 0 5 4 1 ⟨2, 2⟩).window ∧
    configure_checked ⟨2, 1, 4⟩ ⟨0, 0⟩ 0 5 4 1 ⟨3, 2⟩ = Except.error () ∧
    run_checked (configure ⟨2, 1, 4⟩ ⟨0, 0⟩ 0 5 4 1 ⟨2, 2⟩)
      (configureWindow ⟨2, 2⟩ 5 4 2) = Except.error () :=
  ⟨by decide, by decide,
   (eager_fatal_validation ⟨2, 1, 4⟩ ⟨0, 0⟩ 0 5 4 1 ⟨3, 2⟩
     (configure ⟨2, 1, 4⟩ ⟨0, 0⟩ 0 5 4 1 ⟨2, 2⟩)
     (configureWindow ⟨2, 2⟩ 5 4 2)).1 (by decide),
   (eager_fatal_validation ⟨2, 1, 4⟩ ⟨0, 0⟩ 0 5 4 1 ⟨3, 2⟩
     (configure ⟨2, 1, 4⟩ ⟨0, 0⟩ 0 5 4 1 ⟨2, 2⟩)
     (configureWindow ⟨2, 2⟩ 5 4 2)).2 (by decide)⟩

/-- C2 counterexample: with a destination tensor whose first-element byte
offset is 1 (`N = K = 1`, unit blocks, unit strategy constants), the first
planned block's `dst_offset` is 1, not 0 — the sequence does not start at 0
as claimed. -/
theorem destination_contiguity_counterexample :
    ¬ ((fullPlan ⟨1, 1, 1⟩ ⟨0, 0⟩ 1 1 1 1 ⟨1, 1⟩).map
        PrepareBWorkload.offset_transformed_b).head? = some 0 := by decide

/-- C2 (amended): the `dst_offset` values of the planned blocks, in
iteration order, start at the destination tensor's first-element byte
offset (hence at 0 exactly when that offset is 0), and every consecutive
pair satisfies `dst_offset[i+1] = dst_offset[i] + x_size[i] * k_size[i] *
element_size` (the rounded byte size); with positive strategy constants and
element size the sequence is strictly increasing, hence gap-free. -/
theorem destination_contiguity (strat : Strategy) (binfo : BTensorInfo)
    (tb N K multis : Nat) (bs : BlockSizes)
    (hx : 0 < bs.x_block) (hk : 0 < bs.k_block)
    (hpw : 0 < strat.out_width) (hku : 0 < strat.k_unroll)
    (hes : 0 < strat.sizeof_To) :
    (∀ h : 0 < (fullPlan strat binfo tb N K multis bs).length,
      ((fullPlan strat binfo tb N K multis bs).get
        ⟨0, h⟩).offset_transformed_b = tb) ∧
    (∀ i, ∀ h1 : i + 1 < (fullPlan strat binfo tb N K multis bs).length,
      ∀ h2 : i < (fullPlan strat binfo tb N K multis bs).length,
      ((fullPlan strat binfo tb N K multis bs).get
        ⟨i + 1, h1⟩).offset_transformed_b =
        ((fullPlan strat binfo tb N K multis bs).get
          ⟨i, h2⟩).offset_transformed_b +
          blockBytes strat ((fullPlan strat binfo tb N K multis bs).get
            ⟨i, h2⟩) ∧
      ((fullPlan strat binfo tb N K multis bs).get
        ⟨i, h2⟩).offset_transformed_b <
        ((fullPlan strat binfo tb N K multis bs).get
          ⟨i + 1, h1⟩).offset_transformed_b) :=
  planCells_contiguity strat bs N K multis binfo tb hx hk hpw hku hes

/-- C2 witness: the amended contiguity at the concrete scenario's sizes
with destination first-element offset 5: the first block's `dst_offset` is
5 and the second block's `dst_offset` is the first plus its rounded byte
size, strictly larger. -/
theorem destination_contiguity_witness :
    ((fullPlan ⟨8, 4, 4⟩ ⟨0, 0⟩ 5 100 64 1 ⟨32, 32⟩).get
      ⟨0, by decide⟩).offset_transformed_b = 5 ∧
    ((fullPlan ⟨8, 4, 4⟩ ⟨0, 0⟩ 5 100 64 1 ⟨32, 32⟩).get
      ⟨1, by decide⟩).offset_transformed_b =
      ((fullPlan ⟨8, 4, 4⟩ ⟨0, 0⟩ 5 100 64 1 ⟨32, 32⟩).get
        ⟨0, by decide⟩).offset_transformed_b +
        blockBytes ⟨8, 4, 4⟩ ((fullPlan ⟨8, 4, 4⟩ ⟨0, 0⟩ 5 100 64 1
          ⟨32, 32⟩).get ⟨0, by decide⟩) ∧
    ((fullPlan ⟨8, 4, 4⟩ ⟨0, 0⟩ 5 100 64 1 ⟨32, 32⟩).get
      ⟨0, by decide⟩).offset_transformed_b <
      ((fullPlan ⟨8, 4, 4⟩ ⟨0, 0⟩ 5 100 64 1 ⟨32, 32⟩).get
        ⟨1, by decide⟩).offset_transformed_b :=
  ⟨(destination_contiguity ⟨8, 4, 4⟩ ⟨0, 0⟩ 5 100 64 1 ⟨32, 32⟩ (by decide)
      (by decide) (by decide) (by decide) (by decide)).1 (by decide),
   ((destination_contiguity ⟨8, 4, 4⟩ ⟨0, 0⟩ 5 100 64 1 ⟨32, 32⟩ (by decide)
      (by decide) (by decide) (by decide) (by decide)).2 0 (by decide)
        (by decide)).1,
   ((destination_contiguity ⟨8, 4, 4⟩ ⟨0, 0⟩ 5 100 64 1 ⟨32, 32⟩ (by decide)
      (by decide) (by decide) (by decide) (by decide)).2 0 (by decide)
        (by decide)).2⟩

/-- C4: Per-cell block construction. Every planned block clamps its bounds
to the matrix (`xmax = min(x0 + x_step, N)`, `kmax = min(k0 + k_step, K)`);
consecutive destination offsets advance by exactly
`ceil_to_multiple(xmax - x0, panel_width) * ceil_to_multiple(kmax - k0,
k_unroll) * element_size`; and the source offset is a function of the batch
index alone: it equals the batch plane's base offset, so two blocks whose
cells share a batch index have identical `src_offset` regardless of
`(x0, k0)`. -/
theorem per_cell_block_construction (strat : Strategy) (binfo : BTensorInfo)
    (tb N K multis : Nat) (bs : BlockSizes) :
    (∀ wl ∈ fullPlan strat binfo tb N K multis bs,
      wl.xmax = min (wl.x0 + bs.x_block) N ∧
      wl.kmax = min (wl.k0 + bs.k_block) K) ∧
    (∀ i, ∀ h1 : i + 1 < (fullPlan strat binfo tb N K multis bs).length,
      ∀ h2 : i < (fullPlan strat binfo tb N K multis bs).length,
      ((fullPlan strat binfo tb N K multis bs).get
        ⟨i + 1, h1⟩).offset_transformed_b =
        ((fullPlan strat binfo tb N K multis bs).get
          ⟨i, h2⟩).offset_transformed_b +
        ceil_to_multiple (((fullPlan strat binfo tb N K multis bs).get
            ⟨i, h2⟩).xmax -
          ((fullPlan strat binfo tb N K multis bs).get ⟨i, h2⟩).x0)
            strat.out_width *
        ceil_to_multiple (((fullPlan strat binfo tb N K multis bs).get
            ⟨i, h2⟩).kmax -
          ((fullPlan strat binfo tb N K multis bs).get ⟨i, h2⟩).k0)
            strat.k_unroll * strat.sizeof_To) ∧
    (∀ i, ∀ h : i < (fullPlan strat binfo tb N K multis bs).length,
      ∀ h' : i < (windowCells (configureWindow bs N K multis)).length,
      ((fullPlan strat binfo tb N K multis bs).get ⟨i, h⟩).offset_b =
        binfo.offset_element_in_bytes
          ((windowCells (configureWindow bs N K multis)).get ⟨i, h'⟩).2.2) ∧
    (∀ i j, ∀ hi : i < (fullPlan strat binfo tb N K multis bs).length,
      ∀ hj : j < (fullPlan strat binfo tb N K multis bs).length,
      ∀ hi' : i < (windowCells (configureWindow bs N K multis)).length,
      ∀ hj' : j < (windowCells (configureWindow bs N K multis)).length,
      ((windowCells (configureWindow bs N K multis)).get ⟨i, hi'⟩).2.2 =
        ((windowCells (configureWindow bs N K multis)).get ⟨j, hj'⟩).2.2 →
      ((fullPlan strat binfo tb N K multis bs).get ⟨i, hi⟩).offset_b =
        ((fullPlan strat binfo tb N K multis bs).get ⟨j, hj⟩).offset_b) := by
  refine ⟨?_, ?_, ?_, ?_⟩
  · intro wl hwl
    obtain ⟨c, hc, hob, hx0, hxmax, hk0, hkmax⟩ :=
      planCells_mem_to strat bs.x_block bs.k_block N K binfo
        (windowCells (configureWindow bs N K multis)) tb wl hwl
    exact ⟨by rw [hxmax, hx0], by rw [hkmax, hk0]⟩
  · exact planCells_offset_step strat bs N K multis binfo tb
  · intro i h h'
    exact congrArg PrepareBWorkload.offset_b
      (planCells_get strat bs.x_block bs.k_block N K binfo
        (windowCells (configureWindow bs N K multis)) tb i h h')
  · intro i j hi hj hi' hj' heq
    have e1 := congrArg PrepareBWorkload.offset_b
      (planCells_get strat bs.x_block bs.k_block N K binfo
        (windowCells (configureWindow bs N K multis)) tb i hi hi')
    have e2 := congrArg PrepareBWorkload.offset_b
      (planCells_get strat bs.x_block bs.k_block N K binfo
        (windowCells (configureWindow bs N K multis)) tb j hj hj')
    exact e1.trans ((congrArg binfo.offset_element_in_bytes heq).trans e2.symm)

/-- C4 witness: at the concrete scenario's sizes (`N = 100, K = 64`,
32-blocks, batch plane stride 7), the first block clamps as stated, the
second offset advances by the first block's rounded byte size, and blocks 0
and 1 (same batch) share their source offset. -/
theorem per_cell_block_construction_witness :
    ((fullPlan ⟨8, 4, 4⟩ ⟨3, 7⟩ 0 100 64 2 ⟨32, 32⟩).get
        ⟨3, by decide⟩).xmax =
      min (((fullPlan ⟨8, 4, 4⟩ ⟨3, 7⟩ 0 100 64 2 ⟨32, 32⟩).get
        ⟨3, by decide⟩).x0 + 32) 100 ∧
    ((fullPlan ⟨8, 4, 4⟩ ⟨3, 7⟩ 0 100 64 2 ⟨32, 32⟩).get
        ⟨1, by decide⟩).offset_transformed_b =
      ((fullPlan ⟨8, 4, 4⟩ ⟨3, 7⟩ 0 100 64 2 ⟨32, 32⟩).get
        ⟨0, by decide⟩).offset_transformed_b +
      ceil_to_multiple (((fullPlan ⟨8, 4, 4⟩ ⟨3, 7⟩ 0 100 64 2 ⟨32, 32⟩).get
          ⟨0, by decide⟩).xmax -
        ((fullPlan ⟨8, 4, 4⟩ ⟨3, 7⟩ 0 100 64 2 ⟨32, 32⟩).get
          ⟨0, by decide⟩).x0) 8 *
      ceil_to_multiple (((fullPlan ⟨8, 4, 4⟩ ⟨3, 7⟩ 0 100 64 2 ⟨32, 32⟩).get
          ⟨0, by decide⟩).kmax -
        ((fullPlan ⟨8, 4, 4⟩ ⟨3, 7⟩ 0 100 64 2 ⟨32, 32⟩).get
          ⟨0, by decide⟩).k0) 4 * 4 ∧
    ((fullPlan ⟨8, 4, 4⟩ ⟨3, 7⟩ 0 100 64 2 ⟨32, 32⟩).get
        ⟨0, by decide⟩).offset_b =
      ((fullPlan ⟨8, 4, 4⟩ ⟨3, 7⟩ 0 100 64 2 ⟨32, 32⟩).get
        ⟨1, by decide⟩).offset_b :=
  ⟨((per_cell_block_construction ⟨8, 4, 4⟩ ⟨3, 7⟩ 0 100 64 2 ⟨32, 32⟩).1
      _ (List.get_mem _ _ _)).1,
   (per_cell_block_construction ⟨8, 4, 4⟩ ⟨3, 7⟩ 0 100 64 2 ⟨32, 32⟩).2.1
      0 (by decide) (by decide),
   (per_cell_block_construction ⟨8, 4, 4⟩ ⟨3, 7⟩ 0 100 64 2
      ⟨32, 32⟩).2.2.2 0 1 (by decide) (by decide) (by decide) (by decide)
      (by decide)⟩

/-- C6: Exact divisibility case. If `N % x_block = 0` and `K % k_block = 0`
(block sizes positive and aligned to the strategy constants), every planned
block's rounded sizes equal its unrounded sizes: no leftover rounding ever
applies. -/
theorem exact_divisibility (strat : Strategy) (binfo : BTensorInfo)
    (tb N K multis : Nat) (bs : BlockSizes)
    (hx : 0 < bs.x_block) (hk : 0 < bs.k_block)
    (hpx : strat.out_width ∣ bs.x_block)
    (hpk : strat.k_unroll ∣ bs.k_block)
    (hN : N % bs.x_block = 0) (hK : K % bs.k_block = 0) :
    ∀ wl ∈ fullPlan strat binfo tb N K multis bs,
      ceil_to_multiple (wl.xmax - wl.x0) strat.out_width = wl.xmax - wl.x0 ∧
      ceil_to_multiple (wl.kmax - wl.k0) strat.k_unroll = wl.kmax - wl.k0 := by
  have hpw : 0 < strat.out_width := Nat.pos_of_dvd_of_pos hpx hx
  have hku : 0 < strat.k_unroll := Nat.pos_of_dvd_of_pos hpk hk
  have hcx : (N + bs.x_block - 1) / bs.x_block = N / bs.x_block := by
    rw [ceil_div_count N bs.x_block hx, hN]; simp
  have hck : (K + bs.k_block - 1) / bs.k_block = K / bs.k_block := by
    rw [ceil_div_count K bs.k_block hk, hK]; simp
  intro wl hwl
  obtain ⟨c, hc, hob, hx0, hxmax, hk0, hkmax⟩ :=
    planCells_mem_to strat bs.x_block bs.k_block N K binfo
      (windowCells (configureWindow bs N K multis)) tb wl hwl
  rw [mem_windowCells_configure bs N K multis hx hk] at hc
  obtain ⟨m, hm, j, hj, i, hi, rfl⟩ := hc
  rw [hcx] at hi
  rw [hck] at hj
  have hileN : i * bs.x_block + bs.x_block ≤ N := by
    calc i * bs.x_block + bs.x_block = (i + 1) * bs.x_block := by ring
    _ ≤ N / bs.x_block * bs.x_block := Nat.mul_le_mul_right _ hi
    _ = N := Nat.div_mul_cancel (Nat.dvd_of_mod_eq_zero hN)
  have hjleK : j * bs.k_block + bs.k_block ≤ K := by
    calc j * bs.k_block + bs.k_block = (j + 1) * bs.k_block := by ring
    _ ≤ K / bs.k_block * bs.k_block := Nat.mul_le_mul_right _ hj
    _ = K := Nat.div_mul_cancel (Nat.dvd_of_mod_eq_zero hK)
  constructor
  · rw [hxmax, hx0]
    dsimp only
    rw [min_eq_left hileN]
    have hd : i * bs.x_block + bs.x_block - i * bs.x_block = bs.x_block := by
      omega
    rw [hd, ceil_to_multiple_dvd bs.x_block strat.out_width hpw hpx]
  · rw [hkmax, hk0]
    dsimp only
    rw [min_eq_left hjleK]
    have hd : j * bs.k_block + bs.k_block - j * bs.k_block = bs.k_block := by
      omega
    rw [hd, ceil_to_multiple_dvd bs.k_block strat.k_unroll hku hpk]

/-- C6 witness: `N = 64, K = 32` with 32-blocks divide exactly; block 0's
rounded sizes equal its unrounded sizes. -/
theorem exact_divisibility_witness :
    0 < 32 ∧ (8 : Nat) ∣ 32 ∧ (4 : Nat) ∣ 32 ∧ 64 % 32 = 0 ∧ 32 % 32 = 0 ∧
    (ceil_to_multiple (((fullPlan ⟨8, 4, 4⟩ ⟨0, 0⟩ 0 64 32 1 ⟨32, 32⟩).get
        ⟨0, by decide⟩).xmax -
      ((fullPlan ⟨8, 4, 4⟩ ⟨0, 0⟩ 0 64 32 1 ⟨32, 32⟩).get
        ⟨0, by decide⟩).x0) 8 =
      ((fullPlan ⟨8, 4, 4⟩ ⟨0, 0⟩ 0 64 32 1 ⟨32, 32⟩).get
        ⟨0, by decide⟩).xmax -
      ((fullPlan ⟨8, 4, 4⟩ ⟨0, 0⟩ 0 64 32 1 ⟨32, 32⟩).get
        ⟨0, by decide⟩).x0) :=
  ⟨by decide, by decide, by decide, by decide, by decide,
   ((exact_divisibility ⟨8, 4, 4⟩ ⟨0, 0⟩ 0 64 32 1 ⟨32, 32⟩ (by decide)
      (by decide) (by decide) (by decide) (by decide) (by decide))
      _ (List.get_mem _ _ _)).1⟩

/-- C3: Coverage without gaps or overlap. For `N > 0`, `K > 0`, aligned
positive block sizes and a fixed batch index `m` (walking the configured
window restricted to batch plane `m`), every planned block's unrounded
rectangle lies inside `[0, N) x [0, K)`, every point of `[0, N) x [0, K)`
lies in some planned block's unrounded rectangle, and no two planned
blocks' unrounded rectangles overlap. -/
theorem coverage_no_gaps_no_overlap (strat : Strategy) (binfo : BTensorInfo)
    (tb N K multis m : Nat) (bs : BlockSizes)
    (hN : 0 < N) (hK : 0 < K)
    (hx : 0 < bs.x_block) (hk : 0 < bs.k_block)
    (hpx : strat.out_width ∣ bs.x_block)
    (hpk : strat.k_unroll ∣ bs.k_block) :
    (∀ wl ∈ for_each_element_in_window strat
        (batchWindow (configureWindow bs N K multis) m) binfo tb N K,
      wl.xmax ≤ N ∧ wl.kmax ≤ K) ∧
    (∀ p q, p < N → q < K →
      ∃ wl ∈ for_each_element_in_window strat
          (batchWindow (configureWindow bs N K multis) m) binfo tb N K,
        wl.x0 ≤ p ∧ p < wl.xmax ∧ wl.k0 ≤ q ∧ q < wl.kmax) ∧
    (for_each_element_in_window strat
        (batchWindow (configureWindow bs N K multis) m) binfo tb
          N K).Pairwise
      (fun w w' => ∀ p q,
        ¬(w.x0 ≤ p ∧ p < w.xmax ∧ w.k0 ≤ q ∧ q < w.kmax ∧
          w'.x0 ≤ p ∧ p < w'.xmax ∧ w'.k0 ≤ q ∧ q < w'.kmax)) := by
  refine ⟨?_, ?_, ?_⟩
  · intro wl hwl
    obtain ⟨c, hc, hob, hx0, hxmax, hk0, hkmax⟩ :=
      planCells_mem_to strat bs.x_block bs.k_block N K binfo
        (windowCells (batchWindow (configureWindow bs N K multis) m)) tb
          wl hwl
    constructor
    · rw [hxmax]; exact min_le_right _ _
    · rw [hkmax]; exact min_le_right _ _
  · intro p q hp hq
    have h1 : p / bs.x_block * bs.x_block ≤ p :=
      Nat.div_mul_le_self p bs.x_block
    have h2 : N ≤ (N + bs.x_block - 1) / bs.x_block * bs.x_block :=
      le_ceil_to_multiple N bs.x_block hx
    have hi : p / bs.x_block < (N + bs.x_block - 1) / bs.x_block :=
      Nat.lt_of_mul_lt_mul_right (a := bs.x_block) (by omega)
    have h1k : q / bs.k_block * bs.k_block ≤ q :=
      Nat.div_mul_le_self q bs.k_block
    have h2k : K ≤ (K + bs.k_block - 1) / bs.k_block * bs.k_block :=
      le_ceil_to_multiple K bs.k_block hk
    have hj : q / bs.k_block < (K + bs.k_block - 1) / bs.k_block :=
      Nat.lt_of_mul_lt_mul_right (a := bs.k_block) (by omega)
    have hcmem : (p / bs.x_block * bs.x_block,
        q / bs.k_block * bs.k_block, m) ∈
        windowCells (batchWindow (configureWindow bs N K multis) m) :=
      (mem_windowCells_batch bs N K multis m hx hk _).mpr
        ⟨q / bs.k_block, hj, p / bs.x_block, hi, rfl⟩
    obtain ⟨wl, hwl, hob, hx0, hxmax, hk0, hkmax⟩ :=
      planCells_mem_from strat bs.x_block bs.k_block N K binfo
        (windowCells (batchWindow (configureWindow bs N K multis) m)) tb
          _ hcmem
    refine ⟨wl, hwl, ?_, ?_, ?_, ?_⟩
    · rw [hx0]; exact h1
    · rw [hxmax]
      have hpmod := Nat.div_add_mod p bs.x_block
      have hplt := Nat.mod_lt p hx
      have hcomm : p / bs.x_block * bs.x_block =
          bs.x_block * (p / bs.x_block) := Nat.mul_comm _ _
      dsimp only
      omega
    · rw [hk0]; exact h1k
    · rw [hkmax]
      have hqmod := Nat.div_add_mod q bs.k_block
      have hqlt := Nat.mod_lt q hk
      have hcommk : q / bs.k_block * bs.k_block =
          bs.k_block * (q / bs.k_block) := Nat.mul_comm _ _
      dsimp only
      omega
  · have hcells : (windowCells (batchWindow
        (configureWindow bs N K multis) m)).Pairwise
        (fun c c' => ∀ p q,
          ¬(c.1 ≤ p ∧ p < min (c.1 + bs.x_block) N ∧
            c.2.1 ≤ q ∧ q < min (c.2.1 + bs.k_block) K ∧
            c'.1 ≤ p ∧ p < min (c'.1 + bs.x_block) N ∧
            c'.2.1 ≤ q ∧ q < min (c'.2.1 + bs.k_block) K)) := by
      rw [windowCells_batch, List.flatMap_def]
      apply List.pairwise_flatten.mpr
      constructor
      · intro l hl
        rw [List.mem_map] at hl
        obtain ⟨k0, hk0mem, rfl⟩ := hl
        rw [List.pairwise_map]
        refine List.Pairwise.imp ?_ (pairwise_pointsX bs N K multis hx)
        intro a b hab p q hcontra
        dsimp only at hcontra
        omega
      · rw [List.pairwise_map]
        refine List.Pairwise.imp ?_ (pairwise_pointsY bs N K multis hk)
        intro a b hab x hxmem y hymem p q hcontra
        rw [List.mem_map] at hxmem hymem
        obtain ⟨x0, _, rfl⟩ := hxmem
        obtain ⟨y0, _, rfl⟩ := hymem
        dsimp only at hcontra
        omega
    have hplan : ((planCells strat bs.x_block bs.k_block N K binfo
        (windowCells (batchWindow (configureWindow bs N K multis) m))
          tb).map (fun wl => (wl.x0, wl.xmax, wl.k0, wl.kmax))).Pairwise
        (fun r r' => ∀ p q,
          ¬(r.1 ≤ p ∧ p < r.2.1 ∧ r.2.2.1 ≤ q ∧ q < r.2.2.2 ∧
            r'.1 ≤ p ∧ p < r'.2.1 ∧ r'.2.2.1 ≤ q ∧ q < r'.2.2.2)) := by
      rw [planCells_map_rect strat bs.x_block bs.k_block N K binfo
        (windowCells (batchWindow (configureWindow bs N K multis) m)) tb,
        List.pairwise_map]
      exact hcells
    exact List.pairwise_map.mp hplan

/-- C3 witness: at the concrete scenario's sizes on batch plane 0, the
point `(50, 10)` lies in a planned block, and no two planned blocks'
unrounded rectangles overlap. -/
theorem coverage_no_gaps_no_overlap_witness :
    0 < 100 ∧ 0 < 64 ∧ 0 < 32 ∧ (8 : Nat) ∣ 32 ∧ (4 : Nat) ∣ 32 ∧
    (∃ wl ∈ for_each_element_in_window ⟨8, 4, 4⟩
        (batchWindow (configureWindow ⟨32, 32⟩ 100 64 1) 0) ⟨0, 0⟩ 0 100 64,
      wl.x0 ≤ 50 ∧ 50 < wl.xmax ∧ wl.k0 ≤ 10 ∧ 10 < wl.kmax) ∧
    (for_each_element_in_window ⟨8, 4, 4⟩
        (batchWindow (configureWindow ⟨32, 32⟩ 100 64 1) 0) ⟨0, 0⟩ 0
          100 64).Pairwise
      (fun w w' => ∀ p q,
        ¬(w.x0 ≤ p ∧ p < w.xmax ∧ w.k0 ≤ q ∧ q < w.kmax ∧
          w'.x0 ≤ p ∧ p < w'.xmax ∧ w'.k0 ≤ q ∧ q < w'.kmax)) :=
  ⟨by decide, by decide, by decide, by decide, by decide,
   (coverage_no_gaps_no_overlap ⟨8, 4, 4⟩ ⟨0, 0⟩ 0 100 64 1 0 ⟨32, 32⟩
     (by decide) (by decide) (by decide) (by decide) (by decide)
     (by decide)).2.1 50 10 (by decide) (by decide),
   (coverage_no_gaps_no_overlap ⟨8, 4, 4⟩ ⟨0, 0⟩ 0 100 64 1 0 ⟨32, 32⟩
     (by decide) (by decide) (by decide) (by decide) (by decide)
     (by decide)).2.2⟩

end ComputeLibrary
